import Mathlib

set_option autoImplicit false

/-!
Shallow embedding of the ghidra-dark repository: the color/value encoder of
`src/preferences.py` and the install/restore logic of `src/install.py` and
`src/config_handler.py`, together with theorems settling the frozen claims
about them.  File contents are modelled as `List Char`; the file system is an
explicit structure threaded through the install and remove operations.
-/

namespace GhidraDark

/-! ### Color/value encoder (`src/preferences.py`) -/

/-- Exceptions the Python runtime can raise along the modelled code paths of
`Color.__init__`: an out-of-range list index, `bytes.fromhex` rejecting its
input, and `struct.unpack` rejecting a buffer whose size is not 4. -/
inductive PyError where
  | indexError
  | valueError
  | structError
deriving DecidableEq

/-- Value of one hexadecimal digit character, as accepted by Python
`bytes.fromhex` (both lowercase and uppercase letters). -/
def hexVal (c : Char) : Option Nat :=
  let v := c.toNat
  if 48 ≤ v ∧ v ≤ 57 then some (v - 48)
  else if 97 ≤ v ∧ v ≤ 102 then some (v - 87)
  else if 65 ≤ v ∧ v ≤ 70 then some (v - 55)
  else none

/-- Lowercase hexadecimal digit character, as produced by Python
`"{:x}".format`. -/
def hexDigitChar (n : Nat) : Char :=
  if n < 10 then Char.ofNat (48 + n) else Char.ofNat (87 + n)

/-- Python `f"{n:x}"` for `n < 256`.  In `Color.__init__` the formatted number
is the alpha byte `int(255 * normalized_alpha)`, which always lies in
`[0, 255]` because the clamped alpha lies in `[0, 100]`, so one or two digits
suffice. -/
def byteToHex (n : Nat) : List Char :=
  if n < 16 then [hexDigitChar n] else [hexDigitChar (n / 16), hexDigitChar (n % 16)]

/-- Python `bytes.fromhex` on a whitespace-free string: consecutive pairs of
hex digits become bytes; an odd-length string or a non-hex character raises
`ValueError`, modelled as `none`. -/
def fromHex : List Char → Option (List Nat)
  | [] => some []
  | [_] => none
  | c1 :: c2 :: rest =>
    match hexVal c1, hexVal c2, fromHex rest with
    | some h, some l, some bs => some ((16 * h + l) :: bs)
    | _, _, _ => none

/-- Python `struct.unpack("i", b)[0]` on a 4-byte buffer: the little-endian
unsigned value reinterpreted as a signed 32-bit integer. -/
def toSigned32 (bs : List Nat) : Int :=
  let u := bs.getD 0 0 + 256 * bs.getD 1 0 + 65536 * bs.getD 2 0 +
    16777216 * bs.getD 3 0
  if u < 2147483648 then (u : Int) else (u : Int) - 4294967296

/-- Python `[color[i : i + 2] for i in range(0, len(color), 2)]`: chunks of at
most two characters. -/
def splitPairs : List Char → List (List Char)
  | [] => []
  | [c] => [[c]]
  | c1 :: c2 :: rest => [c1, c2] :: splitPairs rest

/-- Python `min` on two ints (returns the first argument on ties). -/
def pyMin (a b : Int) : Int := if a ≤ b then a else b

/-- Python `max` on two ints. -/
def pyMax (a b : Int) : Int := if a ≤ b then b else a

/-- Python `max(min(alpha, 100), 0)` from `Color.__init__`. -/
def clampAlpha (alpha : Int) : Int := pyMax (pyMin alpha 100) 0

/-- Python `int(255 * (float(max(min(alpha, 100), 0)) / 100.0))` from
`Color.__init__`.  For an integer alpha the clamped value `p` lies in
`[0, 100]`, and there the IEEE double computation truncates under `int` to
exactly `⌊255 * p / 100⌋`: the double nearest `p / 100.0` is within relative
error `2 ^ (-53)`, so the correctly rounded product `255 * (p / 100.0)` stays
on the same side of every integer as the exact rational `255 * p / 100`,
whose distance from the nearest integer is either `0` or at least `1 / 20`;
in the exact-integer cases `p ∈ {0, 20, 40, 60, 80, 100}` the accumulated
error (at most `255 * 2 ^ (-52)`) is below half an ulp of the product, which
therefore rounds to that integer itself.  The model hence uses exact floor
division. -/
def hexAlphaByte (alpha : Int) : Nat :=
  (255 * (clampAlpha alpha).toNat) / 100

/-- Python `Color.__init__` from `src/preferences.py` (lines 31-42): split the
input into two-character chunks, clamp alpha and convert it to a byte, build
the string `f"{split_color[2]}{split_color[1]}{split_color[0]}{hex_alpha:x}"`
(raising `IndexError` when there are fewer than three chunks), parse it with
`bytes.fromhex`, and unpack the bytes as a host-endian signed 32-bit integer
(raising `struct.error` unless exactly 4 bytes result). -/
def colorEncode (color : List Char) (alpha : Int) : Except PyError Int :=
  let pairs := splitPairs color
  if 3 ≤ pairs.length then
    let finalColor := pairs.getD 2 [] ++ pairs.getD 1 [] ++ pairs.getD 0 [] ++
      byteToHex (hexAlphaByte alpha)
    match fromHex finalColor with
    | none => .error .valueError
    | some bs => if bs.length = 4 then .ok (toSigned32 bs) else .error .structError
  else .error .indexError

/-! ### File-system model for install/remove
(`src/install.py`, `src/config_handler.py`) -/

/-- Serialized option nodes of one tool-configuration document, as the
(option-path, value) pairs the patcher reads and writes. -/
abbrev TCDDoc := List (String × String)

/-- Modelled from the spec: one patch step of the Tool-Config Patcher —
"locates the node at option-path within the document; if found, overwrites
its value content in place; if not found, constructs a new node and inserts
it". -/
def setOption (d : TCDDoc) (path v : String) : TCDDoc :=
  if d.any (fun e => e.1 == path) then
    d.map (fun e => if e.1 == path then (path, v) else e)
  else d ++ [(path, v)]

/-- Modelled from the spec: `TCDBrowser.update` (defined in `tcd_browser.py`,
which is not in the repository snapshot) — for each catalog entry, replaces
the value at its option-path when the node exists, otherwise inserts a new
node; every other node is left unchanged.  The catalog argument is the
flattened (option-path, serialized value) view of the `preferences` table. -/
def tcdUpdate (catalog : List (String × String)) (d : TCDDoc) : TCDDoc :=
  catalog.foldl (fun acc e => setOption acc e.1 e.2) d

/-- Modelled from the spec: `TCD_LIST` (defined in `tcd_browser.py`, which is
not in the repository snapshot) is "a fixed list of known tool identifiers";
the spec's scenario has five expected tool-config files and `src/install.py`
names the primary one `_code_browser.tcd`.  Only the count, distinctness and
the primary name matter to the claims. -/
def TCD_LIST : List String :=
  ["_code_browser.tcd", "_debugger.tcd", "_version_tracking.tcd",
   "_function_bit_patterns_explorer.tcd", "_function_id.tcd"]

/-- Contents of the Ghidra user config directory, as far as the modelled
functions touch it: the `preferences` file (present with its character
contents, or absent), and the `tools` directory mapping file names to parsed
tool-configuration documents (`.bak` siblings live in the same map under
their suffixed names). -/
structure FS where
  preferences : Option (List Char)
  tools : List (String × TCDDoc)
deriving DecidableEq

/-- Existence and content of a file in the `tools` directory. -/
def lookupFile : List (String × TCDDoc) → String → Option TCDDoc
  | [], _ => none
  | (n, d) :: rest, name => if n = name then some d else lookupFile rest name

/-- Create or overwrite a file in the `tools` directory (the effect of
`shutil.copy` onto the name, or of the patcher writing the file back). -/
def setFile : List (String × TCDDoc) → String → TCDDoc → List (String × TCDDoc)
  | [], name, d => [(name, d)]
  | (n, d0) :: rest, name, d =>
    if n = name then (name, d) :: rest else (n, d0) :: setFile rest name d

/-- Delete a file from the `tools` directory (`os.remove`, or the source side
of `os.rename`). -/
def removeFile : List (String × TCDDoc) → String → List (String × TCDDoc)
  | [], _ => []
  | (n, d) :: rest, name =>
    if n = name then removeFile rest name else (n, d) :: removeFile rest name

/-- Python iteration over the lines of an open text file: each yielded line
keeps its trailing newline character; a final fragment without a newline is
yielded as well.  The accumulator holds the current line reversed. -/
def pyLinesAux : List Char → List Char → List (List Char)
  | [], [] => []
  | [], acc => [acc.reverse]
  | c :: rest, acc =>
    if c = '\n' then (acc.reverse ++ ['\n']) :: pyLinesAux rest []
    else pyLinesAux rest (c :: acc)

/-- The lines of a file's contents, Python style. -/
def pyLines (content : List Char) : List (List Char) := pyLinesAux content []

/-- Whether the first list is an initial segment of the second. -/
def startsWithList : List Char → List Char → Bool
  | [], _ => true
  | _ :: _, [] => false
  | a :: as, b :: bs => a == b && startsWithList as bs

/-- Python substring test `needle in hay`. -/
def containsSub (needle : List Char) : List Char → Bool
  | [] => startsWithList needle []
  | c :: rest => startsWithList needle (c :: rest) || containsSub needle rest

/-- The marker substring `LastLookAndFeel=System` tested by both
`install_dark_preferences` and `remove_dark_preferences`. -/
def lafSystem : List Char := "LastLookAndFeel=System".data

/-- Python loop `for line in fp: if needle in line: ...` over a whole file. -/
def anyLineContains (needle content : List Char) : Bool :=
  (pyLines content).any (fun l => containsSub needle l)

/-- The preferences-file step of `install_dark_preferences`
(`src/install.py` lines 114-125): append the line `LastLookAndFeel=System\n`
unless some line already contains `LastLookAndFeel=System`. -/
def installPrefs (content : List Char) : List Char :=
  if anyLineContains lafSystem content then content
  else content ++ ("LastLookAndFeel=System\n".data)

/-- The preferences-file step of `remove_dark_preferences`
(`src/config_handler.py` lines 24-29): rewrite the file in place keeping
exactly the lines that do not contain `LastLookAndFeel=System`. -/
def removePrefs (content : List Char) : List Char :=
  ((pyLines content).filter (fun l => ! containsSub lafSystem l)).flatten

/-- How a run of `install_dark_preferences` ends: `sys.exit(-1)` because the
preferences file is missing, an uncaught `FileNotFoundError` for the named
tool file, or a normal return; each carries the final file-system state, and
the warnings logged for a missing `_code_browser.tcd` are listed by file
name. -/
inductive InstallOutcome where
  | exited (fs : FS)
  | raised (fs : FS) (warns : List String) (missing : String)
  | ok (fs : FS) (warns : List String)
deriving DecidableEq

/-- The tool-file loop of `install_dark_preferences` (`src/install.py` lines
127-141): for each name, `shutil.copy` the file over its `.bak` sibling
(creating or overwriting the backup) and patch the file in place; on
`FileNotFoundError` log a warning if the name is `_code_browser.tcd`,
otherwise re-raise. -/
def installTcds (catalog : List (String × String)) :
    FS → List String → List String → InstallOutcome
  | fs, warns, [] => .ok fs warns.reverse
  | fs, warns, tcd :: rest =>
    match lookupFile fs.tools tcd with
    | some d =>
      installTcds catalog
        { fs with
          tools := setFile (setFile fs.tools (tcd ++ ".bak") d) tcd (tcdUpdate catalog d) }
        warns rest
    | none =>
      if tcd = "_code_browser.tcd" then installTcds catalog fs (tcd :: warns) rest
      else .raised fs warns.reverse tcd

/-- `install_dark_preferences` (`src/install.py` lines 103-141; the copy in
`src/config_handler.py` lines 44-82 is identical): exit when the
`preferences` file is missing; otherwise patch the preferences file, then
process every file of `TCD_LIST`. -/
def install_dark_preferences (catalog : List (String × String)) (fs : FS) :
    InstallOutcome :=
  match fs.preferences with
  | none => .exited fs
  | some content =>
    installTcds catalog { fs with preferences := some (installPrefs content) } [] TCD_LIST

/-- How a run of `remove_dark_preferences` ends; the warnings logged for
files without a backup are listed by file name. -/
inductive RemoveOutcome where
  | exited (fs : FS)
  | raised (fs : FS) (warns : List String) (path : String)
  | ok (fs : FS) (warns : List String)
deriving DecidableEq

/-- The tool-file loop of `remove_dark_preferences`
(`src/config_handler.py` lines 31-41): warn when the file exists without a
backup; when a backup exists, `os.remove` the file (which raises
`FileNotFoundError` when it is absent) and `os.rename` the backup onto it;
when neither exists, do nothing. -/
def removeTcds : FS → List String → List String → RemoveOutcome
  | fs, warns, [] => .ok fs warns.reverse
  | fs, warns, tcd :: rest =>
    match lookupFile fs.tools tcd, lookupFile fs.tools (tcd ++ ".bak") with
    | some _, none => removeTcds fs (tcd :: warns) rest
    | some _, some d =>
      removeTcds
        { fs with tools := setFile (removeFile fs.tools (tcd ++ ".bak")) tcd d }
        warns rest
    | none, some _ => .raised fs warns.reverse tcd
    | none, none => removeTcds fs warns rest

/-- `remove_dark_preferences` (`src/config_handler.py` lines 13-41): exit
when the `preferences` file is missing; otherwise drop the
`LastLookAndFeel=System` lines from it, then process every file of
`TCD_LIST`. -/
def remove_dark_preferences (fs : FS) : RemoveOutcome :=
  match fs.preferences with
  | none => .exited fs
  | some content =>
    removeTcds { fs with preferences := some (removePrefs content) } [] TCD_LIST

/-- The names of a tool-file list, together with their `.bak` siblings, are
pairwise disjoint (no listed file is another listed file or another's
backup).  `TCD_LIST` satisfies this by computation; the loop lemmas below
need it because each iteration writes only the current name and its backup
name. -/
abbrev DistinctTools (ts : List String) : Prop :=
  List.Pairwise
    (fun a b => b ≠ a ∧ b ≠ a ++ ".bak" ∧ b ++ ".bak" ≠ a ∧ b ++ ".bak" ≠ a ++ ".bak") ts

/-- Final file-system state carried by an install outcome. -/
def InstallOutcome.state : InstallOutcome → FS
  | .exited fs => fs
  | .raised fs _ _ => fs
  | .ok fs _ => fs

/-- Final file-system state carried by a remove outcome. -/
def RemoveOutcome.state : RemoveOutcome → FS
  | .exited fs => fs
  | .raised fs _ _ => fs
  | .ok fs _ => fs

/-- Catalog used in the double-install scenario: the dark theme sets
`Display.Background Color` to the serialized value `dark`. -/
def c1Catalog : List (String × String) := [("Display.Background Color", "dark")]

/-- Tool document of the double-install scenario, still holding the original
(light) value. -/
def c1Doc : TCDDoc := [("Display.Background Color", "light")]

/-- Config directory of the double-install scenario: an empty preferences
file and every expected tool file present with the original document. -/
def c1State : FS := ⟨some [], TCD_LIST.map (fun t => (t, c1Doc))⟩

/-- Config directory of the line-patch scenario: a preferences file holding
exactly the line `LastLookAndFeel=Metal\n`, and every expected tool file
present (empty documents, so the patched state stays small). -/
def metalFS : FS :=
  ⟨some ("LastLookAndFeel=Metal\n".data), TCD_LIST.map (fun t => (t, []))⟩

/-- Config directory with an empty preferences file and every expected tool
file present as an empty document (no backups). -/
def allToolsFS : FS := ⟨some [], TCD_LIST.map (fun t => (t, []))⟩

/-- Config directory with an empty preferences file, every expected tool
file present, and every `.bak` sibling present (all empty documents). -/
def allBackupsFS : FS :=
  ⟨some [], TCD_LIST.map (fun t => (t, ([] : TCDDoc))) ++
    TCD_LIST.map (fun t => (t ++ ".bak", ([] : TCDDoc)))⟩

/-- Python `State` from `src/preferences.py`: a name, `str(value)`, and a type
tag derived from the value's native type. -/
structure PyState where
  name : String
  value : String
  type : String
deriving DecidableEq

/-- The `State(converted_hex, "color")` built at the end of `Color.__init__`:
an `int` value stores its decimal string and the tag `"int"`. -/
def colorState (v : Int) : PyState := ⟨"color", toString v, "int"⟩

/-- The states tuple of the `Wrapped` option built by `Color.__init__`: a
single `State` named `"color"` holding the packed integer. -/
def colorStates (color : List Char) (alpha : Int) : Except PyError (List PyState) :=
  (colorEncode color alpha).map (fun v => [colorState v])

/-- Unfolding step for `fromHex` on a pair of known hex digits. -/
theorem fromHex_cons (c1 c2 : Char) (rest : List Char) (h l : Nat)
    (h1 : hexVal c1 = some h) (h2 : hexVal c2 = some l) :
    fromHex (c1 :: c2 :: rest) = (fromHex rest).map (fun bs => (16 * h + l) :: bs) := by
  simp only [fromHex, h1, h2]
  cases fromHex rest <;> rfl

/-- Evaluation of `colorEncode` at alpha 100 on an input whose first six
characters are hex digits: the remaining characters play no role. -/
theorem colorEncode_hex6 (c0 c1 c2 c3 c4 c5 : Char) (rest : List Char)
    (v0 v1 v2 v3 v4 v5 : Nat)
    (hv0 : hexVal c0 = some v0) (hv1 : hexVal c1 = some v1)
    (hv2 : hexVal c2 = some v2) (hv3 : hexVal c3 = some v3)
    (hv4 : hexVal c4 = some v4) (hv5 : hexVal c5 = some v5) :
    colorEncode (c0 :: c1 :: c2 :: c3 :: c4 :: c5 :: rest) 100 =
      .ok (toSigned32 [16 * v4 + v5, 16 * v2 + v3, 16 * v0 + v1, 255]) := by
  have hpairs : splitPairs (c0 :: c1 :: c2 :: c3 :: c4 :: c5 :: rest) =
      [c0, c1] :: [c2, c3] :: [c4, c5] :: splitPairs rest := rfl
  simp only [colorEncode]
  rw [hpairs]
  rw [if_pos (show 3 ≤ ([c0, c1] :: [c2, c3] :: [c4, c5] :: splitPairs rest).length by
    simp only [List.length_cons]; omega)]
  have hfinal : ([c0, c1] :: [c2, c3] :: [c4, c5] :: splitPairs rest).getD 2 [] ++
      ([c0, c1] :: [c2, c3] :: [c4, c5] :: splitPairs rest).getD 1 [] ++
      ([c0, c1] :: [c2, c3] :: [c4, c5] :: splitPairs rest).getD 0 [] ++
      byteToHex (hexAlphaByte 100) = [c4, c5, c2, c3, c0, c1, 'f', 'f'] := rfl
  rw [hfinal]
  rw [fromHex_cons c4 c5 _ v4 v5 hv4 hv5, fromHex_cons c2 c3 _ v2 v3 hv2 hv3,
    fromHex_cons c0 c1 _ v0 v1 hv0 hv1]
  rfl

/-- C3: encoding the color `"FF0000"` at alpha 100 produces a single state
named `"color"` whose value is the signed 32-bit integer obtained by
unpacking the bytes `00 00 FF FF` little-endian, i.e. the literal -65536. -/
theorem color_red_encoding :
    colorStates ("FF0000".data) 100 = .ok [⟨"color", "-65536", "int"⟩] ∧
    colorEncode ("FF0000".data) 100 = .ok (toSigned32 [0x00, 0x00, 0xFF, 0xFF]) ∧
    toSigned32 [0x00, 0x00, 0xFF, 0xFF] = -65536 :=
  ⟨rfl, rfl, rfl⟩

/-- C4 counterexample: at `alpha = 1` the code computes the alpha byte 2 by
truncating `2.55`, but the nearest integer to `255 * 1 / 100` is 3 (strictly
closer), so the computed byte is not `round(255 * p / 100)`. -/
theorem alpha_byte_not_rounded :
    hexAlphaByte 1 = 2 ∧
    ((255 : Int) - 100 * 3).natAbs < ((255 : Int) - 100 * (hexAlphaByte 1 : Int)).natAbs := by
  decide

/-- C4 amended: for every integer alpha the encoder clamps it to `[0, 100]`
and converts the clamped percentage `p` to the alpha byte `⌊255 * p / 100⌋`
(truncation, not rounding to nearest); the result always lies in `[0, 255]`.
The last two conjuncts characterize the byte as the exact floor of
`255 * p / 100`. -/
theorem alpha_clamped_and_floored (a : Int) :
    0 ≤ clampAlpha a ∧ clampAlpha a ≤ 100 ∧
    hexAlphaByte a ≤ 255 ∧
    100 * hexAlphaByte a ≤ 255 * (clampAlpha a).toNat ∧
    255 * (clampAlpha a).toNat < 100 * (hexAlphaByte a + 1) := by
  have h1 : 0 ≤ clampAlpha a ∧ clampAlpha a ≤ 100 := by
    simp only [clampAlpha, pyMax, pyMin]
    split_ifs <;> omega
  obtain ⟨h1a, h1b⟩ := h1
  have h3 : (clampAlpha a).toNat ≤ 100 := by omega
  have h4 := Nat.div_add_mod (255 * (clampAlpha a).toNat) 100
  have h5 : 255 * (clampAlpha a).toNat % 100 < 100 :=
    Nat.mod_lt _ (by norm_num)
  unfold hexAlphaByte
  refine ⟨h1a, h1b, ?_, ?_, ?_⟩ <;> omega

/-- C8 counterexample: the input `"FF0000FF"` is not exactly 6 hex digits,
yet the encoder succeeds (producing the same value as `"FF0000"`) instead of
failing with a dedicated encoding error. -/
theorem colorEncode_eight_digits_succeeds :
    colorEncode ("FF0000FF".data) 100 = .ok (-65536) := rfl

/-- C8 amended: the encoder has no dedicated malformed-input error: every
input whose first six characters are hex digits succeeds (characters past
the sixth are silently ignored, yielding the value of the first six), and
the failures that do occur are the built-in `IndexError` (fewer than three
two-character chunks) and `ValueError` (`bytes.fromhex` rejecting a non-hex
digit), as on the inputs `"FF00"` and `"GG0000"`. -/
theorem colorEncode_no_validation (c0 c1 c2 c3 c4 c5 : Char) (rest : List Char)
    (h0 : (hexVal c0).isSome = true) (h1 : (hexVal c1).isSome = true)
    (h2 : (hexVal c2).isSome = true) (h3 : (hexVal c3).isSome = true)
    (h4 : (hexVal c4).isSome = true) (h5 : (hexVal c5).isSome = true) :
    (∃ v : Int,
      colorEncode (c0 :: c1 :: c2 :: c3 :: c4 :: c5 :: rest) 100 = .ok v ∧
      colorEncode [c0, c1, c2, c3, c4, c5] 100 = .ok v) ∧
    colorEncode ("FF00".data) 100 = .error .indexError ∧
    colorEncode ("GG0000".data) 100 = .error .valueError := by
  obtain ⟨v0, hv0⟩ := Option.isSome_iff_exists.mp h0
  obtain ⟨v1, hv1⟩ := Option.isSome_iff_exists.mp h1
  obtain ⟨v2, hv2⟩ := Option.isSome_iff_exists.mp h2
  obtain ⟨v3, hv3⟩ := Option.isSome_iff_exists.mp h3
  obtain ⟨v4, hv4⟩ := Option.isSome_iff_exists.mp h4
  obtain ⟨v5, hv5⟩ := Option.isSome_iff_exists.mp h5
  refine ⟨⟨toSigned32 [16 * v4 + v5, 16 * v2 + v3, 16 * v0 + v1, 255], ?_, ?_⟩, rfl, rfl⟩
  · exact colorEncode_hex6 c0 c1 c2 c3 c4 c5 rest v0 v1 v2 v3 v4 v5
      hv0 hv1 hv2 hv3 hv4 hv5
  · exact colorEncode_hex6 c0 c1 c2 c3 c4 c5 [] v0 v1 v2 v3 v4 v5
      hv0 hv1 hv2 hv3 hv4 hv5

/-- Closed instance of `colorEncode_no_validation` at the input
`"FF0000FF"`, whose first six characters `"FF0000"` are hex digits. -/
theorem colorEncode_no_validation_witness :
    (∃ v : Int,
      colorEncode ['F', 'F', '0', '0', '0', '0', 'F', 'F'] 100 = .ok v ∧
      colorEncode ['F', 'F', '0', '0', '0', '0'] 100 = .ok v) ∧
    colorEncode ("FF00".data) 100 = .error .indexError ∧
    colorEncode ("GG0000".data) 100 = .error .valueError :=
  colorEncode_no_validation 'F' 'F' '0' '0' '0' '0' ['F', 'F']
    rfl rfl rfl rfl rfl rfl

/-! ### Lemmas about the install/remove loops -/

/-- The tool-file loop of install never touches the preferences file. -/
theorem installTcds_state_preferences (catalog : List (String × String))
    (ts : List String) : ∀ (fs : FS) (warns : List String),
    (installTcds catalog fs warns ts).state.preferences = fs.preferences := by
  induction ts with
  | nil => intro fs warns; rfl
  | cons tcd rest ih =>
    intro fs warns
    simp only [installTcds]
    cases lookupFile fs.tools tcd with
    | some d => exact ih _ _
    | none =>
      by_cases h : tcd = "_code_browser.tcd"
      · rw [if_pos h]; exact ih _ _
      · rw [if_neg h]; rfl

theorem startsWithList_self_append (n b : List Char) :
    startsWithList n (n ++ b) = true := by
  induction n with
  | nil => rfl
  | cons a as ih => simp [startsWithList, ih]

theorem containsSub_nil_needle (hay : List Char) : containsSub [] hay = true := by
  induction hay with
  | nil => rfl
  | cons c rest ih => simp [containsSub, startsWithList]

/-- A list that has the needle as an inner run contains it as a substring. -/
theorem containsSub_of_append (n a b : List Char) :
    containsSub n (a ++ n ++ b) = true := by
  induction a with
  | nil =>
    cases n with
    | nil => simpa using containsSub_nil_needle b
    | cons x xs =>
      have hsw : startsWithList (x :: xs) (x :: (xs ++ b)) = true := by
        simpa using startsWithList_self_append (x :: xs) b
      simp [containsSub, hsw]
  | cons y a' ih =>
    simp only [List.cons_append, containsSub, Bool.or_eq_true]
    exact Or.inr ih

theorem pyLinesAux_newline (rest acc : List Char) :
    pyLinesAux ('\n' :: rest) acc = (acc.reverse ++ ['\n']) :: pyLinesAux rest [] := rfl

theorem pyLinesAux_other (c : Char) (rest acc : List Char) (h : c ≠ '\n') :
    pyLinesAux (c :: rest) acc = pyLinesAux rest (c :: acc) := by
  simp [pyLinesAux, h]

/-- Reading a newline-terminated, newline-free tail yields it as one line. -/
theorem pyLinesAux_append_newline (s : List Char) (hs : ('\n') ∉ s) :
    ∀ acc : List Char, pyLinesAux (s ++ ['\n']) acc = [acc.reverse ++ s ++ ['\n']] := by
  induction s with
  | nil => intro acc; simp [pyLinesAux]
  | cons x s' ih =>
    intro acc
    simp only [List.mem_cons, not_or] at hs
    have hx : x ≠ '\n' := fun h => hs.1 h.symm
    rw [List.cons_append, pyLinesAux_other x _ acc hx, ih hs.2 (x :: acc)]
    simp

/-- After appending the marker line, some line contains the marker. -/
theorem anyLine_append_marker (c : List Char) :
    anyLineContains lafSystem (c ++ lafSystem ++ ['\n']) = true := by
  suffices h : ∀ acc, (pyLinesAux (c ++ lafSystem ++ ['\n']) acc).any
      (fun l => containsSub lafSystem l) = true by
    exact h []
  induction c with
  | nil =>
    intro acc
    rw [List.nil_append, pyLinesAux_append_newline lafSystem (by decide) acc]
    simp only [List.any_cons, List.any_nil, Bool.or_false]
    exact containsSub_of_append lafSystem acc.reverse ['\n']
  | cons ch c' ih =>
    intro acc
    have hre : ((ch :: c') ++ lafSystem) ++ ['\n'] = ch :: (c' ++ lafSystem ++ ['\n']) := by
      simp
    rw [hre]
    by_cases hch : ch = '\n'
    · subst hch
      rw [pyLinesAux_newline]
      simp only [List.any_cons, Bool.or_eq_true]
      exact Or.inr (ih [])
    · rw [pyLinesAux_other ch _ acc hch]
      exact ih (ch :: acc)

/-- The preferences-file step of install is idempotent. -/
theorem installPrefs_idem (c : List Char) :
    installPrefs (installPrefs c) = installPrefs c := by
  have hmark : ("LastLookAndFeel=System\n".data) = lafSystem ++ ['\n'] := by decide
  by_cases h : anyLineContains lafSystem c = true
  · simp [installPrefs, h]
  · have h2 : anyLineContains lafSystem (c ++ ("LastLookAndFeel=System\n".data)) = true := by
      rw [hmark, ← List.append_assoc]
      exact anyLine_append_marker c
    simp [installPrefs, h, h2]

theorem lookupFile_setFile_ne (n m : String) (d : TCDDoc) (h : m ≠ n) :
    ∀ l : List (String × TCDDoc), lookupFile (setFile l n d) m = lookupFile l m := by
  intro l
  induction l with
  | nil => simp [setFile, lookupFile, Ne.symm h]
  | cons e rest ih =>
    obtain ⟨n0, d0⟩ := e
    by_cases h0 : n0 = n
    · subst h0
      simp [setFile, lookupFile, Ne.symm h]
    · simp [setFile, lookupFile, h0, ih]

theorem lookupFile_removeFile_ne (n m : String) (h : m ≠ n) :
    ∀ l : List (String × TCDDoc), lookupFile (removeFile l n) m = lookupFile l m := by
  intro l
  induction l with
  | nil => rfl
  | cons e rest ih =>
    obtain ⟨n0, d0⟩ := e
    by_cases h0 : n0 = n
    · subst h0
      simp [removeFile, lookupFile, Ne.symm h, ih]
    · simp [removeFile, lookupFile, h0, ih]

theorem lookupFile_setFile_self (n : String) (d : TCDDoc) :
    ∀ l : List (String × TCDDoc), lookupFile (setFile l n d) n = some d := by
  intro l
  induction l with
  | nil => simp [setFile, lookupFile]
  | cons e rest ih =>
    obtain ⟨n0, d0⟩ := e
    by_cases h0 : n0 = n
    · subst h0
      simp [setFile, lookupFile]
    · simp [setFile, lookupFile, h0, ih]

theorem lookupFile_removeFile_self (n : String) :
    ∀ l : List (String × TCDDoc), lookupFile (removeFile l n) n = none := by
  intro l
  induction l with
  | nil => rfl
  | cons e rest ih =>
    obtain ⟨n0, d0⟩ := e
    by_cases h0 : n0 = n
    · subst h0
      simp [removeFile, lookupFile, ih]
    · simp [removeFile, lookupFile, h0, ih]

/-- One install iteration (backup then patch of file `a`) does not change
the lookup of any name other than `a` and `a ++ ".bak"`. -/
theorem lookup_install_step (l : List (String × TCDDoc)) (a : String)
    (da upd : TCDDoc) (m : String) (h1 : m ≠ a) (h2 : m ≠ a ++ ".bak") :
    lookupFile (setFile (setFile l (a ++ ".bak") da) a upd) m = lookupFile l m := by
  rw [lookupFile_setFile_ne a m upd h1, lookupFile_setFile_ne (a ++ ".bak") m da h2]

/-- One restore iteration (delete file `a`, rename its backup onto it) does
not change the lookup of any name other than `a` and `a ++ ".bak"`. -/
theorem lookup_remove_step (l : List (String × TCDDoc)) (a : String)
    (b : TCDDoc) (m : String) (h1 : m ≠ a) (h2 : m ≠ a ++ ".bak") :
    lookupFile (setFile (removeFile l (a ++ ".bak")) a b) m = lookupFile l m := by
  rw [lookupFile_setFile_ne a m b h1, lookupFile_removeFile_ne (a ++ ".bak") m h2]

/-- Frame property of the remove loop: a tool file that exists with no
backup is left untouched by every iteration (the names the loop rewrites
are distinct from it and from its backup name), and when the loop returns
normally the file's warning has been logged. -/
theorem removeTcds_frame (t : String) (c : TCDDoc) :
    ∀ (ts : List String) (fs : FS) (warns : List String),
      (∀ t' ∈ ts, t' = t ∨
        (t' ≠ t ∧ t' ++ ".bak" ≠ t ∧ t' ≠ t ++ ".bak" ∧ t' ++ ".bak" ≠ t ++ ".bak")) →
      lookupFile fs.tools t = some c →
      lookupFile fs.tools (t ++ ".bak") = none →
      lookupFile (removeTcds fs warns ts).state.tools t = some c ∧
      lookupFile (removeTcds fs warns ts).state.tools (t ++ ".bak") = none ∧
      ∀ fs' w, removeTcds fs warns ts = .ok fs' w → (t ∈ ts ∨ t ∈ warns) → t ∈ w := by
  intro ts
  induction ts with
  | nil =>
    intro fs warns hdist hc hb
    refine ⟨hc, hb, ?_⟩
    intro fs' w heq hmem
    simp only [removeTcds] at heq
    cases heq
    rcases hmem with hmem | hmem
    · cases hmem
    · simpa using hmem
  | cons tcd rest ih =>
    intro fs warns hdist hc hb
    have hdrest : ∀ t' ∈ rest, t' = t ∨
        (t' ≠ t ∧ t' ++ ".bak" ≠ t ∧ t' ≠ t ++ ".bak" ∧ t' ++ ".bak" ≠ t ++ ".bak") :=
      fun t' ht' => hdist t' (List.mem_cons_of_mem _ ht')
    rcases hdist tcd (List.mem_cons_self _ _) with rfl | ⟨hne1, hne2, hne3, hne4⟩
    · simp only [removeTcds, hc, hb]
      obtain ⟨f1, f2, f3⟩ := ih fs (tcd :: warns) hdrest hc hb
      refine ⟨f1, f2, ?_⟩
      intro fs' w heq _
      exact f3 fs' w heq (Or.inr (List.mem_cons_self _ _))
    · rcases h1 : lookupFile fs.tools tcd with _ | d <;>
        rcases h2 : lookupFile fs.tools (tcd ++ ".bak") with _ | b
      · simp only [removeTcds, h1, h2]
        obtain ⟨f1, f2, f3⟩ := ih fs warns hdrest hc hb
        refine ⟨f1, f2, ?_⟩
        intro fs' w heq hmem
        refine f3 fs' w heq ?_
        rcases hmem with hmem | hmem
        · rcases List.mem_cons.mp hmem with rfl | hmem'
          · exact absurd rfl hne1
          · exact Or.inl hmem'
        · exact Or.inr hmem
      · simp only [removeTcds, h1, h2]
        refine ⟨hc, hb, ?_⟩
        intro fs' w heq hmem
        cases heq
      · simp only [removeTcds, h1, h2]
        obtain ⟨f1, f2, f3⟩ := ih fs (tcd :: warns) hdrest hc hb
        refine ⟨f1, f2, ?_⟩
        intro fs' w heq hmem
        refine f3 fs' w heq ?_
        rcases hmem with hmem | hmem
        · rcases List.mem_cons.mp hmem with rfl | hmem'
          · exact absurd rfl hne1
          · exact Or.inl hmem'
        · exact Or.inr (List.mem_cons_of_mem _ hmem)
      · have hc' : lookupFile (setFile (removeFile fs.tools (tcd ++ ".bak")) tcd b) t =
            some c := by
          rw [lookupFile_setFile_ne tcd t b (Ne.symm hne1),
            lookupFile_removeFile_ne (tcd ++ ".bak") t (Ne.symm hne2)]
          exact hc
        have hb' : lookupFile (setFile (removeFile fs.tools (tcd ++ ".bak")) tcd b)
            (t ++ ".bak") = none := by
          rw [lookupFile_setFile_ne tcd (t ++ ".bak") b (Ne.symm hne3),
            lookupFile_removeFile_ne (tcd ++ ".bak") (t ++ ".bak") (Ne.symm hne4)]
          exact hb
        simp only [removeTcds, h1, h2]
        obtain ⟨f1, f2, f3⟩ := ih
          { fs with tools := setFile (removeFile fs.tools (tcd ++ ".bak")) tcd b }
          warns hdrest hc' hb'
        refine ⟨f1, f2, ?_⟩
        intro fs' w heq hmem
        refine f3 fs' w heq ?_
        rcases hmem with hmem | hmem
        · rcases List.mem_cons.mp hmem with rfl | hmem'
          · exact absurd rfl hne1
          · exact Or.inl hmem'
        · exact Or.inr hmem

/-- The install loop completes normally when every non-primary file of the
list is present; a missing primary only adds a warning. -/
theorem installTcds_completes (catalog : List (String × String)) :
    ∀ (ts : List String) (fs : FS) (warns : List String),
      DistinctTools ts →
      (∀ t ∈ ts, t ≠ "_code_browser.tcd" → (lookupFile fs.tools t).isSome = true) →
      ∃ fs' w, installTcds catalog fs warns ts = .ok fs' w := by
  intro ts
  induction ts with
  | nil => intro fs warns _ _; exact ⟨fs, warns.reverse, rfl⟩
  | cons a rest ih =>
    intro fs warns hdt hpres
    have hda := (List.pairwise_cons.mp hdt).1
    have hdrest : DistinctTools rest := (List.pairwise_cons.mp hdt).2
    rcases ha : lookupFile fs.tools a with _ | d
    · have hap : a = "_code_browser.tcd" := by
        by_contra hne
        have hx := hpres a (List.mem_cons_self _ _) hne
        rw [ha] at hx
        cases hx
      simp only [installTcds, ha]
      rw [if_pos hap]
      exact ih fs (a :: warns) hdrest
        (fun t ht hne => hpres t (List.mem_cons_of_mem _ ht) hne)
    · simp only [installTcds, ha]
      refine ih
        { fs with tools := setFile (setFile fs.tools (a ++ ".bak") d) a (tcdUpdate catalog d) }
        warns hdrest ?_
      intro t ht hne
      have hr := hda t ht
      have hst : lookupFile (setFile (setFile fs.tools (a ++ ".bak") d) a
          (tcdUpdate catalog d)) t = lookupFile fs.tools t :=
        lookup_install_step fs.tools a d (tcdUpdate catalog d) t hr.1 hr.2.1
      show (lookupFile (setFile (setFile fs.tools (a ++ ".bak") d) a
          (tcdUpdate catalog d)) t).isSome = true
      rw [hst]
      exact hpres t (List.mem_cons_of_mem _ ht) hne

/-- When a non-primary file of the list is absent, the install loop ends by
re-raising `FileNotFoundError` for some absent non-primary file. -/
theorem installTcds_raises (catalog : List (String × String)) :
    ∀ (ts : List String) (fs : FS) (warns : List String) (t : String),
      DistinctTools ts → t ∈ ts → t ≠ "_code_browser.tcd" →
      lookupFile fs.tools t = none →
      ∃ fs' w t0, installTcds catalog fs warns ts = .raised fs' w t0 ∧
        t0 ∈ ts ∧ t0 ≠ "_code_browser.tcd" ∧ lookupFile fs.tools t0 = none := by
  intro ts
  induction ts with
  | nil => intro fs warns t _ ht; cases ht
  | cons a rest ih =>
    intro fs warns t hdt hmem hnp habs
    have hda := (List.pairwise_cons.mp hdt).1
    have hdrest : DistinctTools rest := (List.pairwise_cons.mp hdt).2
    rcases ha : lookupFile fs.tools a with _ | d
    · by_cases hap : a = "_code_browser.tcd"
      · have htr : t ∈ rest := by
          rcases List.mem_cons.mp hmem with rfl | h
          · exact absurd hap hnp
          · exact h
        simp only [installTcds, ha]
        rw [if_pos hap]
        obtain ⟨fs', w, t0, heq, ht0, hnp0, habs0⟩ :=
          ih fs (a :: warns) t hdrest htr hnp habs
        exact ⟨fs', w, t0, heq, List.mem_cons_of_mem _ ht0, hnp0, habs0⟩
      · simp only [installTcds, ha]
        rw [if_neg hap]
        exact ⟨fs, warns.reverse, a, rfl, List.mem_cons_self _ _, hap, ha⟩
    · have hta : t ≠ a := by
        intro h
        rw [h, ha] at habs
        cases habs
      have htr : t ∈ rest := by
        rcases List.mem_cons.mp hmem with rfl | h
        · exact absurd rfl hta
        · exact h
      have hr := hda t htr
      simp only [installTcds, ha]
      have habs2 : lookupFile (setFile (setFile fs.tools (a ++ ".bak") d) a
          (tcdUpdate catalog d)) t = none := by
        rw [lookup_install_step fs.tools a d (tcdUpdate catalog d) t hr.1 hr.2.1]
        exact habs
      obtain ⟨fs', w, t0, heq, ht0, hnp0, habs0⟩ := ih
        { fs with tools := setFile (setFile fs.tools (a ++ ".bak") d) a (tcdUpdate catalog d) }
        warns t hdrest htr hnp habs2
      refine ⟨fs', w, t0, heq, List.mem_cons_of_mem _ ht0, hnp0, ?_⟩
      have hr0 := hda t0 ht0
      rw [← lookup_install_step fs.tools a d (tcdUpdate catalog d) t0 hr0.1 hr0.2.1]
      exact habs0

/-- Every warning a completed install loop reports names the primary
`_code_browser.tcd` (it is the only name ever pushed). -/
theorem installTcds_warns_primary (catalog : List (String × String)) :
    ∀ (ts : List String) (fs : FS) (warns : List String) (fs' : FS) (w : List String),
      (∀ x ∈ warns, x = "_code_browser.tcd") →
      installTcds catalog fs warns ts = .ok fs' w →
      ∀ x ∈ w, x = "_code_browser.tcd" := by
  intro ts
  induction ts with
  | nil =>
    intro fs warns fs' w hw heq
    simp only [installTcds] at heq
    cases heq
    intro x hx
    exact hw x (List.mem_reverse.mp hx)
  | cons a rest ih =>
    intro fs warns fs' w hw heq
    rcases ha : lookupFile fs.tools a with _ | d <;> simp only [installTcds, ha] at heq
    · by_cases hap : a = "_code_browser.tcd"
      · rw [if_pos hap] at heq
        refine ih fs (a :: warns) fs' w ?_ heq
        intro x hx
        rcases List.mem_cons.mp hx with rfl | hx'
        · exact hap
        · exact hw x hx'
      · rw [if_neg hap] at heq
        cases heq
    · exact ih _ warns fs' w hw heq

/-- A completed install loop that started with the primary file absent (or
with its warning already pending) reports the primary's warning. -/
theorem installTcds_missing_primary_warned (catalog : List (String × String)) :
    ∀ (ts : List String) (fs : FS) (warns : List String),
      DistinctTools ts →
      ("_code_browser.tcd" ∈ warns ∨
        ("_code_browser.tcd" ∈ ts ∧ lookupFile fs.tools "_code_browser.tcd" = none)) →
      ∀ fs' w, installTcds catalog fs warns ts = .ok fs' w →
        "_code_browser.tcd" ∈ w := by
  intro ts
  induction ts with
  | nil =>
    intro fs warns _ hcase fs' w heq
    simp only [installTcds] at heq
    cases heq
    rcases hcase with h | ⟨h, _⟩
    · exact List.mem_reverse.mpr h
    · cases h
  | cons a rest ih =>
    intro fs warns hdt hcase fs' w heq
    have hda := (List.pairwise_cons.mp hdt).1
    have hdrest : DistinctTools rest := (List.pairwise_cons.mp hdt).2
    rcases ha : lookupFile fs.tools a with _ | d <;> simp only [installTcds, ha] at heq
    · by_cases hap : a = "_code_browser.tcd"
      · rw [if_pos hap] at heq
        refine ih fs (a :: warns) hdrest (Or.inl ?_) fs' w heq
        rw [← hap]
        exact List.mem_cons_self _ _
      · rw [if_neg hap] at heq
        cases heq
    · rcases hcase with h | ⟨hmem, habs⟩
      · exact ih _ warns hdrest (Or.inl h) fs' w heq
      · have hane : "_code_browser.tcd" ≠ a := by
          intro hh
          rw [← hh] at ha
          rw [ha] at habs
          cases habs
        have hmem' : "_code_browser.tcd" ∈ rest := by
          rcases List.mem_cons.mp hmem with hh | hh
          · exact absurd hh hane
          · exact hh
        have hrp := hda _ hmem'
        have habs2 : lookupFile (setFile (setFile fs.tools (a ++ ".bak") d) a
            (tcdUpdate catalog d)) "_code_browser.tcd" = none := by
          rw [lookup_install_step fs.tools a d (tcdUpdate catalog d) _ hrp.1 hrp.2.1]
          exact habs
        exact ih
          { fs with tools := setFile (setFile fs.tools (a ++ ".bak") d) a (tcdUpdate catalog d) }
          warns hdrest (Or.inr ⟨hmem', habs2⟩) fs' w heq

/-- The install loop leaves every name outside the listed files and their
backups untouched, in every outcome. -/
theorem installTcds_lookup_untouched (catalog : List (String × String)) (n : String) :
    ∀ (ts : List String) (fs : FS) (warns : List String),
      (∀ t' ∈ ts, n ≠ t' ∧ n ≠ t' ++ ".bak") →
      lookupFile (installTcds catalog fs warns ts).state.tools n = lookupFile fs.tools n := by
  intro ts
  induction ts with
  | nil => intro fs warns _; rfl
  | cons a rest ih =>
    intro fs warns hn
    have hna := hn a (List.mem_cons_self _ _)
    have hnr : ∀ t' ∈ rest, n ≠ t' ∧ n ≠ t' ++ ".bak" :=
      fun t' ht' => hn t' (List.mem_cons_of_mem _ ht')
    rcases ha : lookupFile fs.tools a with _ | d <;> simp only [installTcds, ha]
    · by_cases hap : a = "_code_browser.tcd"
      · rw [if_pos hap]
        exact ih fs (a :: warns) hnr
      · rw [if_neg hap]
        rfl
    · rw [ih
        { fs with tools := setFile (setFile fs.tools (a ++ ".bak") d) a (tcdUpdate catalog d) }
        warns hnr]
      exact lookup_install_step fs.tools a d (tcdUpdate catalog d) n hna.1 hna.2

/-- On a completed install loop, every file present at the start ends
patched in place, with its backup holding the original document. -/
theorem installTcds_patches (catalog : List (String × String)) :
    ∀ (ts : List String) (fs : FS) (warns : List String) (t : String) (d : TCDDoc),
      DistinctTools ts → t ∈ ts → t ++ ".bak" ≠ t →
      lookupFile fs.tools t = some d →
      ∀ fs' w, installTcds catalog fs warns ts = .ok fs' w →
        lookupFile fs'.tools t = some (tcdUpdate catalog d) ∧
        lookupFile fs'.tools (t ++ ".bak") = some d := by
  intro ts
  induction ts with
  | nil => intro fs warns t d _ ht; cases ht
  | cons a rest ih =>
    intro fs warns t d hdt hmem hself hlook fs' w heq
    have hda := (List.pairwise_cons.mp hdt).1
    have hdrest : DistinctTools rest := (List.pairwise_cons.mp hdt).2
    rcases List.mem_cons.mp hmem with rfl | htr
    · simp only [installTcds, hlook] at heq
      have hstate : (installTcds catalog
          { fs with tools := setFile (setFile fs.tools (t ++ ".bak") d) t (tcdUpdate catalog d) }
          warns rest).state = fs' := by
        rw [heq]
        rfl
      have hn1 : ∀ t' ∈ rest, t ≠ t' ∧ t ≠ t' ++ ".bak" := by
        intro t' ht'
        have hr := hda t' ht'
        exact ⟨Ne.symm hr.1, Ne.symm hr.2.2.1⟩
      have hn2 : ∀ t' ∈ rest, t ++ ".bak" ≠ t' ∧ t ++ ".bak" ≠ t' ++ ".bak" := by
        intro t' ht'
        have hr := hda t' ht'
        exact ⟨Ne.symm hr.2.1, Ne.symm hr.2.2.2⟩
      constructor
      · rw [← hstate, installTcds_lookup_untouched catalog t rest _ warns hn1]
        exact lookupFile_setFile_self t (tcdUpdate catalog d) _
      · rw [← hstate, installTcds_lookup_untouched catalog (t ++ ".bak") rest _ warns hn2]
        show lookupFile (setFile (setFile fs.tools (t ++ ".bak") d) t (tcdUpdate catalog d))
          (t ++ ".bak") = some d
        rw [lookupFile_setFile_ne t (t ++ ".bak") (tcdUpdate catalog d) hself]
        exact lookupFile_setFile_self (t ++ ".bak") d fs.tools
    · rcases ha : lookupFile fs.tools a with _ | da <;> simp only [installTcds, ha] at heq
      · by_cases hap : a = "_code_browser.tcd"
        · rw [if_pos hap] at heq
          exact ih fs (a :: warns) t d hdrest htr hself hlook fs' w heq
        · rw [if_neg hap] at heq
          cases heq
      · have hr := hda t htr
        have hlook2 : lookupFile (setFile (setFile fs.tools (a ++ ".bak") da) a
            (tcdUpdate catalog da)) t = some d := by
          rw [lookup_install_step fs.tools a da (tcdUpdate catalog da) t hr.1 hr.2.1]
          exact hlook
        exact ih
          { fs with tools := setFile (setFile fs.tools (a ++ ".bak") da) a (tcdUpdate catalog da) }
          warns t d hdrest htr hself hlook2 fs' w heq

/-- The remove loop completes normally when every backed-up file still has
its current file on disk. -/
theorem removeTcds_completes :
    ∀ (ts : List String) (fs : FS) (warns : List String),
      DistinctTools ts →
      (∀ t ∈ ts, (lookupFile fs.tools (t ++ ".bak")).isSome = true →
        (lookupFile fs.tools t).isSome = true) →
      ∃ fs' w, removeTcds fs warns ts = .ok fs' w := by
  intro ts
  induction ts with
  | nil => intro fs warns _ _; exact ⟨fs, warns.reverse, rfl⟩
  | cons a rest ih =>
    intro fs warns hdt hpres
    have hda := (List.pairwise_cons.mp hdt).1
    have hdrest : DistinctTools rest := (List.pairwise_cons.mp hdt).2
    have hrest0 : ∀ t ∈ rest, (lookupFile fs.tools (t ++ ".bak")).isSome = true →
        (lookupFile fs.tools t).isSome = true :=
      fun t ht => hpres t (List.mem_cons_of_mem _ ht)
    rcases ha1 : lookupFile fs.tools a with _ | da <;>
      rcases ha2 : lookupFile fs.tools (a ++ ".bak") with _ | ba
    · simp only [removeTcds, ha1, ha2]
      exact ih fs warns hdrest hrest0
    · have hx := hpres a (List.mem_cons_self _ _)
      rw [ha1, ha2] at hx
      cases hx rfl
    · simp only [removeTcds, ha1, ha2]
      exact ih fs (a :: warns) hdrest hrest0
    · simp only [removeTcds, ha1, ha2]
      refine ih { fs with tools := setFile (removeFile fs.tools (a ++ ".bak")) a ba }
        warns hdrest ?_
      intro t ht
      have hr := hda t ht
      show (lookupFile (setFile (removeFile fs.tools (a ++ ".bak")) a ba) (t ++ ".bak")).isSome
          = true →
        (lookupFile (setFile (removeFile fs.tools (a ++ ".bak")) a ba) t).isSome = true
      rw [lookup_remove_step fs.tools a ba t hr.1 hr.2.1,
        lookup_remove_step fs.tools a ba (t ++ ".bak") hr.2.2.1 hr.2.2.2]
      exact hrest0 t ht

/-- When some listed file has a backup but no current file, the remove loop
ends by raising `FileNotFoundError` for such a file. -/
theorem removeTcds_raises :
    ∀ (ts : List String) (fs : FS) (warns : List String) (t : String),
      DistinctTools ts → t ∈ ts →
      lookupFile fs.tools t = none →
      (lookupFile fs.tools (t ++ ".bak")).isSome = true →
      ∃ fs' w t0, removeTcds fs warns ts = .raised fs' w t0 ∧ t0 ∈ ts ∧
        lookupFile fs.tools t0 = none ∧
        (lookupFile fs.tools (t0 ++ ".bak")).isSome = true := by
  intro ts
  induction ts with
  | nil => intro fs warns t _ ht; cases ht
  | cons a rest ih =>
    intro fs warns t hdt hmem habs hbak
    have hda := (List.pairwise_cons.mp hdt).1
    have hdrest : DistinctTools rest := (List.pairwise_cons.mp hdt).2
    rcases ha1 : lookupFile fs.tools a with _ | da <;>
      rcases ha2 : lookupFile fs.tools (a ++ ".bak") with _ | ba
    · have hta : t ≠ a := by
        intro h
        rw [h, ha2] at hbak
        cases hbak
      have htr : t ∈ rest := by
        rcases List.mem_cons.mp hmem with rfl | h
        · exact absurd rfl hta
        · exact h
      simp only [removeTcds, ha1, ha2]
      obtain ⟨fs', w, t0, heq, ht0, h1, h2⟩ := ih fs warns t hdrest htr habs hbak
      exact ⟨fs', w, t0, heq, List.mem_cons_of_mem _ ht0, h1, h2⟩
    · simp only [removeTcds, ha1, ha2]
      refine ⟨fs, warns.reverse, a, rfl, List.mem_cons_self _ _, ha1, ?_⟩
      rw [ha2]
      rfl
    · have hta : t ≠ a := by
        intro h
        rw [h, ha1] at habs
        cases habs
      have htr : t ∈ rest := by
        rcases List.mem_cons.mp hmem with rfl | h
        · exact absurd rfl hta
        · exact h
      simp only [removeTcds, ha1, ha2]
      obtain ⟨fs', w, t0, heq, ht0, h1, h2⟩ := ih fs (a :: warns) t hdrest htr habs hbak
      exact ⟨fs', w, t0, heq, List.mem_cons_of_mem _ ht0, h1, h2⟩
    · have hta : t ≠ a := by
        intro h
        rw [h, ha1] at habs
        cases habs
      have htr : t ∈ rest := by
        rcases List.mem_cons.mp hmem with rfl | h
        · exact absurd rfl hta
        · exact h
      have hr := hda t htr
      have habs2 : lookupFile (setFile (removeFile fs.tools (a ++ ".bak")) a ba) t = none := by
        rw [lookup_remove_step fs.tools a ba t hr.1 hr.2.1]
        exact habs
      have hbak2 : (lookupFile (setFile (removeFile fs.tools (a ++ ".bak")) a ba)
          (t ++ ".bak")).isSome = true := by
        rw [lookup_remove_step fs.tools a ba (t ++ ".bak") hr.2.2.1 hr.2.2.2]
        exact hbak
      simp only [removeTcds, ha1, ha2]
      obtain ⟨fs', w, t0, heq, ht0, h1, h2⟩ := ih
        { fs with tools := setFile (removeFile fs.tools (a ++ ".bak")) a ba }
        warns t hdrest htr habs2 hbak2
      have hr0 := hda t0 ht0
      refine ⟨fs', w, t0, heq, List.mem_cons_of_mem _ ht0, ?_, ?_⟩
      · rw [← lookup_remove_step fs.tools a ba t0 hr0.1 hr0.2.1]
        exact h1
      · rw [← lookup_remove_step fs.tools a ba (t0 ++ ".bak") hr0.2.2.1 hr0.2.2.2]
        exact h2

/-- The remove loop leaves every name outside the listed files and their
backups untouched, in every outcome. -/
theorem removeTcds_lookup_untouched (n : String) :
    ∀ (ts : List String) (fs : FS) (warns : List String),
      (∀ t' ∈ ts, n ≠ t' ∧ n ≠ t' ++ ".bak") →
      lookupFile (removeTcds fs warns ts).state.tools n = lookupFile fs.tools n := by
  intro ts
  induction ts with
  | nil => intro fs warns _; rfl
  | cons a rest ih =>
    intro fs warns hn
    have hna := hn a (List.mem_cons_self _ _)
    have hnr : ∀ t' ∈ rest, n ≠ t' ∧ n ≠ t' ++ ".bak" :=
      fun t' ht' => hn t' (List.mem_cons_of_mem _ ht')
    rcases ha1 : lookupFile fs.tools a with _ | da <;>
      rcases ha2 : lookupFile fs.tools (a ++ ".bak") with _ | ba <;>
      simp only [removeTcds, ha1, ha2]
    · exact ih fs warns hnr
    · rfl
    · exact ih fs (a :: warns) hnr
    · rw [ih { fs with tools := setFile (removeFile fs.tools (a ++ ".bak")) a ba } warns hnr]
      exact lookup_remove_step fs.tools a ba n hna.1 hna.2

/-- On a completed remove loop, every file whose backup and current file
were both present ends holding the backed-up document, with the backup
gone. -/
theorem removeTcds_restores :
    ∀ (ts : List String) (fs : FS) (warns : List String) (t : String) (c b : TCDDoc),
      DistinctTools ts → t ∈ ts → t ++ ".bak" ≠ t →
      lookupFile fs.tools t = some c →
      lookupFile fs.tools (t ++ ".bak") = some b →
      ∀ fs' w, removeTcds fs warns ts = .ok fs' w →
        lookupFile fs'.tools t = some b ∧ lookupFile fs'.tools (t ++ ".bak") = none := by
  intro ts
  induction ts with
  | nil => intro fs warns t c b _ ht; cases ht
  | cons a rest ih =>
    intro fs warns t c b hdt hmem hself hc hbak fs' w heq
    have hda := (List.pairwise_cons.mp hdt).1
    have hdrest : DistinctTools rest := (List.pairwise_cons.mp hdt).2
    rcases List.mem_cons.mp hmem with rfl | htr
    · simp only [removeTcds, hc, hbak] at heq
      have hstate : (removeTcds
          { fs with tools := setFile (removeFile fs.tools (t ++ ".bak")) t b }
          warns rest).state = fs' := by
        rw [heq]
        rfl
      have hn1 : ∀ t' ∈ rest, t ≠ t' ∧ t ≠ t' ++ ".bak" := by
        intro t' ht'
        have hr := hda t' ht'
        exact ⟨Ne.symm hr.1, Ne.symm hr.2.2.1⟩
      have hn2 : ∀ t' ∈ rest, t ++ ".bak" ≠ t' ∧ t ++ ".bak" ≠ t' ++ ".bak" := by
        intro t' ht'
        have hr := hda t' ht'
        exact ⟨Ne.symm hr.2.1, Ne.symm hr.2.2.2⟩
      constructor
      · rw [← hstate, removeTcds_lookup_untouched t rest _ warns hn1]
        exact lookupFile_setFile_self t b _
      · rw [← hstate, removeTcds_lookup_untouched (t ++ ".bak") rest _ warns hn2]
        show lookupFile (setFile (removeFile fs.tools (t ++ ".bak")) t b) (t ++ ".bak") = none
        rw [lookupFile_setFile_ne t (t ++ ".bak") b hself]
        exact lookupFile_removeFile_self (t ++ ".bak") fs.tools
    · have hr := hda t htr
      rcases ha1 : lookupFile fs.tools a with _ | da <;>
        rcases ha2 : lookupFile fs.tools (a ++ ".bak") with _ | ba <;>
        simp only [removeTcds, ha1, ha2] at heq
      · exact ih fs warns t c b hdrest htr hself hc hbak fs' w heq
      · cases heq
      · exact ih fs (a :: warns) t c b hdrest htr hself hc hbak fs' w heq
      · have hc2 : lookupFile (setFile (removeFile fs.tools (a ++ ".bak")) a ba) t = some c := by
          rw [lookup_remove_step fs.tools a ba t hr.1 hr.2.1]
          exact hc
        have hbak2 : lookupFile (setFile (removeFile fs.tools (a ++ ".bak")) a ba)
            (t ++ ".bak") = some b := by
          rw [lookup_remove_step fs.tools a ba (t ++ ".bak") hr.2.2.1 hr.2.2.2]
          exact hbak
        exact ih { fs with tools := setFile (removeFile fs.tools (a ++ ".bak")) a ba }
          warns t c b hdrest htr hself hc2 hbak2 fs' w heq

/-! ### Claim theorems about install/remove -/

/-- C1: the install loop copies the current tool file over the `.bak` path
unconditionally, so a second install without an intervening restore
overwrites the backup with the already-patched document — here, after one
install on `c1State` the backup of `_code_browser.tcd` holds the original
`c1Doc`, and after a second install it holds the patched document instead,
losing the original pre-dark-mode content. -/
theorem double_install_overwrites_backup :
    lookupFile ((install_dark_preferences c1Catalog c1State).state).tools
      "_code_browser.tcd.bak" = some c1Doc ∧
    lookupFile ((install_dark_preferences c1Catalog
        ((install_dark_preferences c1Catalog c1State).state)).state).tools
      "_code_browser.tcd.bak" = some [("Display.Background Color", "dark")] ∧
    ([("Display.Background Color", "dark")] : TCDDoc) ≠ c1Doc := by
  decide

/-- C2 counterexample: on a preferences file holding exactly the line
`LastLookAndFeel=Metal\n`, install does not replace that line: the file's
content after `install_dark_preferences` is not `LastLookAndFeel=System\n`. -/
theorem install_metal_not_replaced :
    (install_dark_preferences [] metalFS).state.preferences ≠
      some ("LastLookAndFeel=System\n".data) := by
  decide

/-- C2 amended: on a preferences file holding exactly
`LastLookAndFeel=Metal\n`, install appends the line
`LastLookAndFeel=System\n` after the kept Metal line, and remove deletes the
System line again and restores every tool file from its backup, returning
the file system to exactly the original state. -/
theorem metal_install_remove_cycle :
    (install_dark_preferences [] metalFS).state.preferences =
      some ("LastLookAndFeel=Metal\nLastLookAndFeel=System\n".data) ∧
    (remove_dark_preferences ((install_dark_preferences [] metalFS).state)).state =
      metalFS := by
  decide

/-- C5 counterexample: with the preferences file and the primary
`_code_browser.tcd` present but the non-primary `_debugger.tcd` absent,
install does not complete and does not merely warn: the
`FileNotFoundError` is re-raised, aborting after patching the files that
came before it in the list. -/
theorem missing_secondary_tcd_raises :
    install_dark_preferences [] ⟨some [], [("_code_browser.tcd", [])]⟩ =
      .raised ⟨some ("LastLookAndFeel=System\n".data),
        [("_code_browser.tcd", []), ("_code_browser.tcd.bak", [])]⟩ [] "_debugger.tcd" := by
  decide

/-- C5 amended: with the preferences file present, `install_dark_preferences`
completes normally iff every non-primary file of `TCD_LIST` is present; when
some non-primary file is absent the run instead re-raises
`FileNotFoundError` for an absent non-primary file; and on a completed run
every reported warning names the primary `_code_browser.tcd`, an initially
absent primary is warned about, and every initially present tool file has
been backed up with its original document and patched in place. -/
theorem install_missing_tcd_policy (catalog : List (String × String)) (fs : FS)
    (content : List Char) (hp : fs.preferences = some content) :
    ((∃ fs' w, install_dark_preferences catalog fs = .ok fs' w) ↔
      ∀ t ∈ TCD_LIST, t ≠ "_code_browser.tcd" → (lookupFile fs.tools t).isSome = true) ∧
    ((∃ t ∈ TCD_LIST, t ≠ "_code_browser.tcd" ∧ lookupFile fs.tools t = none) →
      ∃ fs' w t0, install_dark_preferences catalog fs = .raised fs' w t0 ∧
        t0 ∈ TCD_LIST ∧ t0 ≠ "_code_browser.tcd" ∧ lookupFile fs.tools t0 = none) ∧
    (∀ fs' w, install_dark_preferences catalog fs = .ok fs' w →
      (∀ x ∈ w, x = "_code_browser.tcd") ∧
      (lookupFile fs.tools "_code_browser.tcd" = none → "_code_browser.tcd" ∈ w) ∧
      (∀ t ∈ TCD_LIST, ∀ d, lookupFile fs.tools t = some d →
        lookupFile fs'.tools t = some (tcdUpdate catalog d) ∧
        lookupFile fs'.tools (t ++ ".bak") = some d)) := by
  have hdt : DistinctTools TCD_LIST := by decide
  have hrw : install_dark_preferences catalog fs =
      installTcds catalog { fs with preferences := some (installPrefs content) } [] TCD_LIST := by
    unfold install_dark_preferences
    rw [hp]
  refine ⟨⟨?_, ?_⟩, ?_, ?_⟩
  · rintro ⟨fs', w, heq⟩ t ht hnp
    rcases hlt : lookupFile fs.tools t with _ | d
    · obtain ⟨fs2, w2, t0, heq2, _, _, _⟩ := installTcds_raises catalog TCD_LIST
        { fs with preferences := some (installPrefs content) } [] t hdt ht hnp hlt
      rw [hrw] at heq
      rw [heq] at heq2
      cases heq2
    · rfl
  · intro hpres
    obtain ⟨fs', w, heq⟩ := installTcds_completes catalog TCD_LIST
      { fs with preferences := some (installPrefs content) } [] hdt hpres
    exact ⟨fs', w, by rw [hrw]; exact heq⟩
  · rintro ⟨t, ht, hnp, habs⟩
    obtain ⟨fs', w, t0, heq, h1, h2, h3⟩ := installTcds_raises catalog TCD_LIST
      { fs with preferences := some (installPrefs content) } [] t hdt ht hnp habs
    exact ⟨fs', w, t0, by rw [hrw]; exact heq, h1, h2, h3⟩
  · intro fs' w heq
    rw [hrw] at heq
    refine ⟨?_, ?_, ?_⟩
    · exact installTcds_warns_primary catalog TCD_LIST
        { fs with preferences := some (installPrefs content) } [] fs' w
        (fun x hx => absurd hx (List.not_mem_nil x)) heq
    · intro habs
      exact installTcds_missing_primary_warned catalog TCD_LIST
        { fs with preferences := some (installPrefs content) } [] hdt
        (Or.inr ⟨by decide, habs⟩) fs' w heq
    · intro t ht d hd
      have hself : t ++ ".bak" ≠ t := by
        have hall : ∀ t' ∈ TCD_LIST, t' ++ ".bak" ≠ t' := by decide
        exact hall t ht
      exact installTcds_patches catalog TCD_LIST
        { fs with preferences := some (installPrefs content) } [] t d hdt ht hself hd fs' w heq

/-- Closed instance of `install_missing_tcd_policy` on the config directory
`allToolsFS`, in which every expected tool file is present. -/
theorem install_missing_tcd_policy_witness :
    ((∃ fs' w, install_dark_preferences [] allToolsFS = .ok fs' w) ↔
      ∀ t ∈ TCD_LIST, t ≠ "_code_browser.tcd" →
        (lookupFile allToolsFS.tools t).isSome = true) ∧
    ((∃ t ∈ TCD_LIST, t ≠ "_code_browser.tcd" ∧ lookupFile allToolsFS.tools t = none) →
      ∃ fs' w t0, install_dark_preferences [] allToolsFS = .raised fs' w t0 ∧
        t0 ∈ TCD_LIST ∧ t0 ≠ "_code_browser.tcd" ∧
        lookupFile allToolsFS.tools t0 = none) ∧
    (∀ fs' w, install_dark_preferences [] allToolsFS = .ok fs' w →
      (∀ x ∈ w, x = "_code_browser.tcd") ∧
      (lookupFile allToolsFS.tools "_code_browser.tcd" = none → "_code_browser.tcd" ∈ w) ∧
      (∀ t ∈ TCD_LIST, ∀ d, lookupFile allToolsFS.tools t = some d →
        lookupFile fs'.tools t = some (tcdUpdate [] d) ∧
        lookupFile fs'.tools (t ++ ".bak") = some d)) :=
  install_missing_tcd_policy [] allToolsFS [] rfl

/-- C6 counterexample: when the backup `_code_browser.tcd.bak` exists but the
current `_code_browser.tcd` is absent, restore does not tolerate the
absence: `os.remove` raises `FileNotFoundError` and the run aborts with the
state unchanged. -/
theorem restore_missing_current_raises :
    remove_dark_preferences ⟨some [], [("_code_browser.tcd.bak", [])]⟩ =
      .raised ⟨some [], [("_code_browser.tcd.bak", [])]⟩ [] "_code_browser.tcd" := by
  decide

/-- C6 amended: with the preferences file present: for every tool path of
`TCD_LIST` whose `.bak` sibling and current file both exist, a normally
completing `remove_dark_preferences` leaves the path holding the backed-up
content with the `.bak` file gone; when some path has a backup but no
current file, the absence is not tolerated: the run raises
`FileNotFoundError` (from `os.remove`) for such a path and cannot complete
normally; and when every backed-up path still has its current file, the run
does complete normally. -/
theorem restore_backup_policy (fs : FS) (content : List Char)
    (hp : fs.preferences = some content) :
    (∀ t ∈ TCD_LIST, ∀ c b, lookupFile fs.tools t = some c →
      lookupFile fs.tools (t ++ ".bak") = some b →
      ∀ fs' w, remove_dark_preferences fs = .ok fs' w →
        lookupFile fs'.tools t = some b ∧ lookupFile fs'.tools (t ++ ".bak") = none) ∧
    ((∃ t ∈ TCD_LIST, lookupFile fs.tools t = none ∧
        (lookupFile fs.tools (t ++ ".bak")).isSome = true) →
      (∃ fs' w t0, remove_dark_preferences fs = .raised fs' w t0 ∧ t0 ∈ TCD_LIST ∧
        lookupFile fs.tools t0 = none ∧
        (lookupFile fs.tools (t0 ++ ".bak")).isSome = true) ∧
      ¬ ∃ fs' w, remove_dark_preferences fs = .ok fs' w) ∧
    ((∀ t ∈ TCD_LIST, (lookupFile fs.tools (t ++ ".bak")).isSome = true →
        (lookupFile fs.tools t).isSome = true) →
      ∃ fs' w, remove_dark_preferences fs = .ok fs' w) := by
  have hdt : DistinctTools TCD_LIST := by decide
  have hrw : remove_dark_preferences fs =
      removeTcds { fs with preferences := some (removePrefs content) } [] TCD_LIST := by
    unfold remove_dark_preferences
    rw [hp]
  refine ⟨?_, ?_, ?_⟩
  · intro t ht c b hc hbak fs' w heq
    rw [hrw] at heq
    have hself : t ++ ".bak" ≠ t := by
      have hall : ∀ t' ∈ TCD_LIST, t' ++ ".bak" ≠ t' := by decide
      exact hall t ht
    exact removeTcds_restores TCD_LIST
      { fs with preferences := some (removePrefs content) } [] t c b hdt ht hself hc hbak fs' w heq
  · rintro ⟨t, ht, habs, hbak⟩
    obtain ⟨fs', w, t0, heq, h1, h2, h3⟩ := removeTcds_raises TCD_LIST
      { fs with preferences := some (removePrefs content) } [] t hdt ht habs hbak
    constructor
    · exact ⟨fs', w, t0, by rw [hrw]; exact heq, h1, h2, h3⟩
    · rintro ⟨fs2, w2, heq2⟩
      rw [hrw] at heq2
      rw [heq] at heq2
      cases heq2
  · intro hpres
    obtain ⟨fs', w, heq⟩ := removeTcds_completes TCD_LIST
      { fs with preferences := some (removePrefs content) } [] hdt hpres
    exact ⟨fs', w, by rw [hrw]; exact heq⟩

/-- Closed instance of `restore_backup_policy` on the config directory
`allBackupsFS`, in which every tool file and every backup is present. -/
theorem restore_backup_policy_witness :
    (∀ t ∈ TCD_LIST, ∀ c b, lookupFile allBackupsFS.tools t = some c →
      lookupFile allBackupsFS.tools (t ++ ".bak") = some b →
      ∀ fs' w, remove_dark_preferences allBackupsFS = .ok fs' w →
        lookupFile fs'.tools t = some b ∧ lookupFile fs'.tools (t ++ ".bak") = none) ∧
    ((∃ t ∈ TCD_LIST, lookupFile allBackupsFS.tools t = none ∧
        (lookupFile allBackupsFS.tools (t ++ ".bak")).isSome = true) →
      (∃ fs' w t0, remove_dark_preferences allBackupsFS = .raised fs' w t0 ∧
        t0 ∈ TCD_LIST ∧ lookupFile allBackupsFS.tools t0 = none ∧
        (lookupFile allBackupsFS.tools (t0 ++ ".bak")).isSome = true) ∧
      ¬ ∃ fs' w, remove_dark_preferences allBackupsFS = .ok fs' w) ∧
    ((∀ t ∈ TCD_LIST, (lookupFile allBackupsFS.tools (t ++ ".bak")).isSome = true →
        (lookupFile allBackupsFS.tools t).isSome = true) →
      ∃ fs' w, remove_dark_preferences allBackupsFS = .ok fs' w) :=
  restore_backup_policy allBackupsFS [] rfl

/-- C7: a tool-config file that exists with no `.bak` sibling is left with
its content and existence unchanged by `remove_dark_preferences` (and no
backup appears for it), and whenever the run returns normally its warning
has been reported. -/
theorem remove_no_backup_keeps_file (fs : FS) (content : List Char)
    (t : String) (c : TCDDoc)
    (hmem : t ∈ TCD_LIST) (hp : fs.preferences = some content)
    (hc : lookupFile fs.tools t = some c)
    (hb : lookupFile fs.tools (t ++ ".bak") = none) :
    lookupFile (remove_dark_preferences fs).state.tools t = some c ∧
    lookupFile (remove_dark_preferences fs).state.tools (t ++ ".bak") = none ∧
    ∀ fs' w, remove_dark_preferences fs = .ok fs' w → t ∈ w := by
  have hdist : ∀ t' ∈ TCD_LIST, t' = t ∨
      (t' ≠ t ∧ t' ++ ".bak" ≠ t ∧ t' ≠ t ++ ".bak" ∧ t' ++ ".bak" ≠ t ++ ".bak") := by
    have hm := hmem
    simp only [TCD_LIST, List.mem_cons, List.not_mem_nil, or_false] at hm
    rcases hm with rfl | rfl | rfl | rfl | rfl <;> decide
  obtain ⟨f1, f2, f3⟩ := removeTcds_frame t c TCD_LIST
    { fs with preferences := some (removePrefs content) } [] hdist hc hb
  have hrw : remove_dark_preferences fs =
      removeTcds { fs with preferences := some (removePrefs content) } [] TCD_LIST := by
    unfold remove_dark_preferences
    rw [hp]
  rw [hrw]
  exact ⟨f1, f2, fun fs' w heq => f3 fs' w heq (Or.inl hmem)⟩

/-- Closed instance of `remove_no_backup_keeps_file`: a directory holding
only `_code_browser.tcd` (no backup) keeps that file unchanged across
remove, and the completed run warns for it. -/
theorem remove_no_backup_keeps_file_witness :
    lookupFile (remove_dark_preferences ⟨some [], [("_code_browser.tcd", [])]⟩).state.tools
      "_code_browser.tcd" = some [] ∧
    lookupFile (remove_dark_preferences ⟨some [], [("_code_browser.tcd", [])]⟩).state.tools
      ("_code_browser.tcd" ++ ".bak") = none ∧
    ∀ fs' w, remove_dark_preferences ⟨some [], [("_code_browser.tcd", [])]⟩ = .ok fs' w →
      "_code_browser.tcd" ∈ w :=
  remove_no_backup_keeps_file ⟨some [], [("_code_browser.tcd", [])]⟩ [] "_code_browser.tcd"
    [] (by decide) rfl (by decide) (by decide)

/-- C9: when the preferences file does not exist, both
`install_dark_preferences` and `remove_dark_preferences` abort immediately
(`sys.exit(-1)`) with the file system untouched: no tool-config file and no
backup is read or written. -/
theorem missing_preferences_fatal (catalog : List (String × String)) (fs : FS)
    (h : fs.preferences = none) :
    install_dark_preferences catalog fs = .exited fs ∧
    remove_dark_preferences fs = .exited fs := by
  unfold install_dark_preferences remove_dark_preferences
  rw [h]
  exact ⟨rfl, rfl⟩

/-- Closed instance of `missing_preferences_fatal` on the empty config
directory. -/
theorem missing_preferences_fatal_witness :
    install_dark_preferences [] ⟨none, []⟩ = .exited ⟨none, []⟩ ∧
    remove_dark_preferences ⟨none, []⟩ = .exited ⟨none, []⟩ :=
  missing_preferences_fatal [] ⟨none, []⟩ rfl

/-- C10: when some line of the preferences file already contains
`LastLookAndFeel=System`, `install_dark_preferences` leaves the preferences
file byte-identical; moreover the preferences-file step is idempotent, so
repeated installs append the `LastLookAndFeel=System` line at most once in
total. -/
theorem install_system_line_at_most_once (catalog : List (String × String))
    (fs : FS) (content : List Char) (hp : fs.preferences = some content)
    (hhas : anyLineContains lafSystem content = true) :
    (install_dark_preferences catalog fs).state.preferences = some content ∧
    ∀ c : List Char, installPrefs (installPrefs c) = installPrefs c := by
  constructor
  · have hrw : install_dark_preferences catalog fs =
        installTcds catalog { fs with preferences := some (installPrefs content) }
          [] TCD_LIST := by
      unfold install_dark_preferences
      rw [hp]
    rw [hrw, installTcds_state_preferences]
    simp [installPrefs, hhas]
  · exact installPrefs_idem

/-- Closed instance of `install_system_line_at_most_once` on a preferences
file already holding the `LastLookAndFeel=System` line. -/
theorem install_system_line_at_most_once_witness :
    (install_dark_preferences []
      ⟨some ("LastLookAndFeel=System\n".data), []⟩).state.preferences =
      some ("LastLookAndFeel=System\n".data) ∧
    ∀ c : List Char, installPrefs (installPrefs c) = installPrefs c :=
  install_system_line_at_most_once [] ⟨some ("LastLookAndFeel=System\n".data), []⟩
    ("LastLookAndFeel=System\n".data) rfl (by decide)

end GhidraDark
